import Mathlib

set_option maxHeartbeats 1000000

/-!
Verification development for the GOES-DL satellite dataset downloader.

The repository ships the product catalog (`src/config/settings.json`), the
user documentation (`README.md`), and example notebooks whose cells record
the outputs of the real implementation; the Python package sources
themselves are not part of the snapshot.  The definitions below therefore
model the missing implementation from the specification, kept consistent
with every recorded output of the notebooks (filename matching, timestamp
extraction, download logs, and constructor error messages).
-/

/- ### A star-free regular-expression engine

The dataset locators build their filename matchers by concatenating a
literal prefix, a date pattern such as `\d{4}\.\d{2}\.\d{2}\.\d{2}` and a
literal suffix, and hand the result to Python's `re.fullmatch`.  The
patterns used never contain `*` or `+`, so a star-free syntax suffices. -/

/-- Modelled from the spec: the abstract syntax of the star-free regular
expressions produced by the locators' filename grammars (`re` patterns with
literals, `.`, `\d`, bounded repetition, `(?:a|b)` alternation and
concatenation); the Python implementation file that compiles these patterns
is not part of the snapshot. -/
inductive Pattern where
  | lit (c : Char)
  | dot
  | digitP
  | eps
  | cat (p q : Pattern)
  | alt (p q : Pattern)
deriving DecidableEq, Repr

/-- All suffixes of `s` that remain after matching some prefix of `s`
against the pattern.  This is the standard executable semantics of a
star-free regular expression. -/
def matchEnds : Pattern → List Char → List (List Char)
  | .lit c, x :: r => if x = c then [r] else []
  | .lit _, [] => []
  | .dot, _ :: r => [r]
  | .dot, [] => []
  | .digitP, x :: r => if x.isDigit then [r] else []
  | .digitP, [] => []
  | .eps, s => [s]
  | .cat p q, s => (matchEnds p s).flatMap (matchEnds q)
  | .alt p q, s => matchEnds p s ++ matchEnds q s

/-- `re.fullmatch` semantics: the whole input is consumed. -/
def fullmatch (p : Pattern) (s : List Char) : Bool :=
  decide ([] ∈ matchEnds p s)

/-- Concatenation of a list of atoms into a single pattern. -/
def catList (ps : List Pattern) : Pattern :=
  ps.foldr .cat .eps

/-- A sequence of literal characters as a single pattern. -/
def litSeq (w : List Char) : Pattern :=
  catList (w.map .lit)

/-- The atoms of a literal word, used to split compiled atom lists. -/
def litAtoms (w : List Char) : List Pattern :=
  w.map .lit

/-- Bounded repetition (`{n}` in the surface syntax). -/
def powPat (a : Pattern) : Nat → Pattern
  | 0 => .eps
  | n + 1 => .cat a (powPat a n)

/-- Alternation of literal words (`(?:a|b|c)` in the surface syntax). -/
def altOfLits : List (List Char) → Pattern
  | [] => .eps
  | [w] => litSeq w
  | w :: ws => .alt (litSeq w) (altOfLits ws)

/-- Split the body of an alternation group at the `|` separators. -/
def splitBar : List Char → List (List Char)
  | [] => [[]]
  | '|' :: r => [] :: splitBar r
  | c :: r =>
    match splitBar r with
    | [] => [[c]]
    | g :: gs => (c :: g) :: gs

/-- Decimal value of a digit string (used for `{n}` repetition counts). -/
def digitsToNat (ds : List Char) : Nat :=
  ds.foldl (fun a c => a * 10 + (c.toNat - 48)) 0

/-- Modelled from the spec: fuel-driven compiler from the locator pattern
strings (a restricted `re` syntax: escapes `\d` and `\.`, `.`, `{n}`
repetition, `(?:..|..)` groups and `(..)` capture groups) to the star-free
abstract syntax.  The accumulator holds the atoms compiled so far in
reverse order. -/
def compileLoop : Nat → List Char → List Pattern → List Pattern
  | 0, _, acc => acc.reverse
  | _ + 1, [], acc => acc.reverse
  | fuel + 1, '\\' :: 'd' :: r, acc => compileLoop fuel r (.digitP :: acc)
  | fuel + 1, '\\' :: c :: r, acc => compileLoop fuel r (.lit c :: acc)
  | fuel + 1, '\x7b' :: r, acc =>
    let ds := r.takeWhile (·.isDigit)
    let r1 := r.dropWhile (·.isDigit)
    match r1, acc with
    | '\x7d' :: r2, a :: as => compileLoop fuel r2 (powPat a (digitsToNat ds) :: as)
    | _, _ => compileLoop fuel r1 acc
  | fuel + 1, '(' :: '?' :: ':' :: r, acc =>
    let body := r.takeWhile (· ≠ ')')
    let r1 := (r.dropWhile (· ≠ ')')).drop 1
    compileLoop fuel r1 (altOfLits (splitBar body) :: acc)
  | fuel + 1, '(' :: r, acc =>
    let body := r.takeWhile (· ≠ ')')
    let r1 := (r.dropWhile (· ≠ ')')).drop 1
    compileLoop fuel r1 (catList (compileLoop fuel body []) :: acc)
  | fuel + 1, '.' :: r, acc => compileLoop fuel r (.dot :: acc)
  | fuel + 1, c :: r, acc => compileLoop fuel r (.lit c :: acc)

/-- Atoms of a compiled pattern string. -/
def compileAtoms (s : String) : List Pattern :=
  compileLoop (s.length + 1) s.toList []

/-- Compiled form of a pattern string. -/
def compilePattern (s : String) : Pattern :=
  catList (compileAtoms s)

/-- All possible contents of the capture group when the input is matched as
`pre`, then the captured group `dat`, then `suf` consuming the rest, in
backtracking order.  Mirrors `match.group(1)` of `re.fullmatch` applied to
the pattern `pre(dat)suf`. -/
def captures (pre dat suf : Pattern) (s : List Char) : List (List Char) :=
  (matchEnds pre s).flatMap fun r1 =>
    (matchEnds dat r1).filterMap fun r2 =>
      if [] ∈ matchEnds suf r2 then some (r1.take (r1.length - r2.length)) else none

/-- Python's `str.startswith`, on the pure character lists. -/
def strStarts (s pre : String) : Bool :=
  pre.toList.isPrefixOf s.toList

/-- Python's `str.endswith`, on the pure character lists. -/
def strEnds (s suf : String) : Bool :=
  suf.toList.isSuffixOf s.toList

/- ### Date parsing and rendering

The locators attach a `date_format` such as `%Y.%m.%d.%H` to each product
and parse the captured timestamp substring with `datetime.strptime`,
attaching the UTC timezone.  The directives below model exactly the
directives those formats use. -/

/-- Modelled from the spec: one `strptime`/`strftime` directive of the
datasets' date formats (`%Y`, `%m`, `%d`, `%H`, `%M`, or a literal
character); the date-handling module is not part of the snapshot. -/
inductive Directive where
  | yearD
  | monthD
  | dayD
  | hourD
  | minuteD
  | litD (c : Char)
deriving DecidableEq, Repr

/-- Modelled from the spec: translation of a percent-format string into its
directive list, covering the directives the dataset formats use. -/
def parseFormat : List Char → List Directive
  | [] => []
  | '%' :: 'Y' :: r => .yearD :: parseFormat r
  | '%' :: 'm' :: r => .monthD :: parseFormat r
  | '%' :: 'd' :: r => .dayD :: parseFormat r
  | '%' :: 'H' :: r => .hourD :: parseFormat r
  | '%' :: 'M' :: r => .minuteD :: parseFormat r
  | '%' :: c :: r => .litD c :: parseFormat r
  | c :: r => .litD c :: parseFormat r

/-- Modelled from the spec: a UTC wall-clock instant as carried by the
downloader (year, month, day, hour, minute); the datasets' formats have no
seconds field and every extracted timestamp is UTC. -/
structure DateTime where
  y : Nat
  m : Nat
  d : Nat
  hh : Nat
  mm : Nat
deriving DecidableEq, Repr

/-- The `strptime` default base value (year 1900, January 1st, midnight). -/
def dtDefault : DateTime := ⟨1900, 1, 1, 0, 0⟩

/-- Numeric value of a digit character. -/
def digitVal (c : Char) : Nat := c.toNat - 48

/-- The digit character of a value below ten. -/
def digitChr : Nat → Char
  | 0 => '0'
  | 1 => '1'
  | 2 => '2'
  | 3 => '3'
  | 4 => '4'
  | 5 => '5'
  | 6 => '6'
  | 7 => '7'
  | 8 => '8'
  | 9 => '9'
  | _ + 10 => '*'

/-- The year directive consumes exactly four digits, as in CPython. -/
def parse4 : List Char → Option (Nat × List Char)
  | a :: b :: c :: d :: r =>
    if a.isDigit && b.isDigit && c.isDigit && d.isDigit then
      some (((digitVal a * 10 + digitVal b) * 10 + digitVal c) * 10 + digitVal d, r)
    else none
  | _ => none

/-- A two-digit field whose value must lie in the closed range from `lo` to
`hi`.  CPython's field regexes admit exactly the two-digit strings in the
field range; their one-digit fallbacks can never fire on the two-digit
substrings produced by the locator date patterns, so they are not
modelled. -/
def parse2 (lo hi : Nat) : List Char → Option (Nat × List Char)
  | a :: b :: r =>
    let v := digitVal a * 10 + digitVal b
    if a.isDigit && b.isDigit && decide (lo ≤ v) && decide (v ≤ hi) then
      some (v, r)
    else none
  | _ => none

/-- One `strptime` step: consume one directive from the input. -/
def stepDir : Directive → List Char → DateTime → Option (DateTime × List Char)
  | .yearD, s, t => (parse4 s).map fun (v, r) => ({ t with y := v }, r)
  | .monthD, s, t => (parse2 1 12 s).map fun (v, r) => ({ t with m := v }, r)
  | .dayD, s, t => (parse2 1 31 s).map fun (v, r) => ({ t with d := v }, r)
  | .hourD, s, t => (parse2 0 23 s).map fun (v, r) => ({ t with hh := v }, r)
  | .minuteD, s, t => (parse2 0 59 s).map fun (v, r) => ({ t with mm := v }, r)
  | .litD c, x :: r, t => if x = c then some (t, r) else none
  | .litD _, [], _ => none

/-- Run a directive list over the whole input; unconverted trailing data is
an error, as in `strptime`. -/
def runDirs : List Directive → List Char → DateTime → Option DateTime
  | [], [], t => some t
  | [], _ :: _, _ => none
  | dir :: ds, s, t =>
    match stepDir dir s t with
    | none => none
    | some (t1, r) => runDirs ds r t1

/-- Gregorian leap-year predicate. -/
def isLeap (y : Nat) : Bool :=
  y % 4 == 0 && (y % 100 != 0 || y % 400 == 0)

/-- Days in a month, as validated by the Python `datetime` constructor. -/
def daysInMonth (y m : Nat) : Nat :=
  if m = 2 then (if isLeap y then 29 else 28)
  else if m = 4 || m = 6 || m = 9 || m = 11 then 30
  else 31

/-- Modelled from the spec: `datetime.strptime` restricted to the dataset
date formats, including the calendar validation performed by the `datetime`
constructor (year at least one, day within the month). -/
def strptime (dirs : List Directive) (s : List Char) : Option DateTime :=
  match runDirs dirs s dtDefault with
  | none => none
  | some t => if 1 ≤ t.y ∧ t.d ≤ daysInMonth t.y t.m then some t else none

/-- Two-digit zero-padded rendering. -/
def pad2 (n : Nat) : List Char :=
  [digitChr (n / 10 % 10), digitChr (n % 10)]

/-- Four-digit zero-padded rendering. -/
def pad4 (n : Nat) : List Char :=
  [digitChr (n / 1000 % 10), digitChr (n / 100 % 10), digitChr (n / 10 % 10), digitChr (n % 10)]

/-- Modelled from the spec: `strftime` restricted to the dataset date
formats; re-renders a timestamp through a directive list. -/
def renderDirs (dirs : List Directive) (t : DateTime) : List Char :=
  dirs.flatMap fun
    | .yearD => pad4 t.y
    | .monthD => pad2 t.m
    | .dayD => pad2 t.d
    | .hourD => pad2 t.hh
    | .minuteD => pad2 t.mm
    | .litD c => [c]

/- ### The GridSat product filename grammar -/

/-- Errors raised by the locator's timestamp extraction: a filename that
does not match the compiled pattern (`PatternMismatchError`, surfaced as a
`ValueError` by the implementation) or matched digits that do not form a
valid calendar date (the `ValueError` raised by `strptime`). -/
inductive GSErr where
  | patternMismatch
  | invalidDate
deriving DecidableEq, Repr

/-- Modelled from the spec: the `GridSatProduct` record exactly as printed
by the testing notebook, e.g.
`GridSatProduct(name=B1, origin=[], version=[v02r01],
date_format=%Y.%m.%d.%H, date_pattern=\d{4}\.\d{2}\.\d{2}\.\d{2},
file_prefix=GRIDSAT)`; the module `GOES_DL.dataset.gridsat` is not part of
the snapshot. -/
structure GridSatProduct where
  name : String
  origin : List String
  version : List String
  date_format : String
  date_pattern : String
  file_prefix : String

/-- Modelled from the spec: the literal-plus-alternation regex fragment for
everything before the timestamp field.  The recorded notebook outputs show
that for a product with a non-empty origin list the returned string is a
regex fragment (an alternation group), not a literal: the filename
`GridSat-GOES.goes12.2017.12.31.2330.v01.nc` does **not** `startswith` the
returned prefix even though it matches the full pattern. -/
def getPrefixString (p : GridSatProduct) : String :=
  p.file_prefix ++ "-" ++ p.name ++ "." ++
    (if p.origin.isEmpty then ""
     else "(?:" ++ String.intercalate "|" p.origin ++ ")" ++ ".")

/-- Modelled from the spec: the regex fragment for everything after the
timestamp field (the version alternation and the `.nc` extension). -/
def getSuffixString (p : GridSatProduct) : String :=
  "." ++ "(?:" ++ String.intercalate "|" p.version ++ ")" ++ ".nc"

/-- Modelled from the spec: the full filename pattern
`prefix(date_pattern)suffix` handed to `re.fullmatch`. -/
def getFilenamePattern (p : GridSatProduct) : String :=
  getPrefixString p ++ "(" ++ p.date_pattern ++ ")" ++ getSuffixString p

/-- Modelled from the spec: `GridSatProduct.match` — true iff the filename
fully matches the compiled filename pattern. -/
def gsMatch (p : GridSatProduct) (f : String) : Bool :=
  fullmatch (compilePattern (getFilenamePattern p)) f.toList

/-- The contents of the capture group (the timestamp substring), in
backtracking order, when `f` matches the product's filename pattern. -/
def capturesOf (p : GridSatProduct) (s : List Char) : List (List Char) :=
  captures (compilePattern (getPrefixString p))
    (compilePattern p.date_pattern)
    (compilePattern (getSuffixString p)) s

/-- Modelled from the spec: `GridSatProduct.get_datetime` — extract the
timestamp substring via the capture group of the filename pattern and parse
it with the product's date format; a filename that does not match raises
the pattern-mismatch `ValueError`, and matched digits that do not form a
valid calendar date raise the `strptime` `ValueError`. -/
def gsGetDatetime (p : GridSatProduct) (f : String) : Except GSErr DateTime :=
  match (capturesOf p f.toList).head? with
  | none => .error .patternMismatch
  | some ds =>
    match strptime (parseFormat p.date_format.toList) ds with
    | some t => .ok t
    | none => .error .invalidDate

/-- The GridSat-B1 product, with the constructor arguments recorded in the
testing notebook. -/
def productB1 : GridSatProduct :=
  { name := "B1"
    origin := []
    version := ["v02r01"]
    date_format := "%Y.%m.%d.%H"
    date_pattern := "\\d{4}\\.\\d{2}\\.\\d{2}\\.\\d{2}"
    file_prefix := "GRIDSAT" }

/-- The GridSat-GOES/CONUS product `GridSatProductGC("F", "G12")`, with the
field values recorded in the testing notebook (scene `F` maps to the name
`GOES`, origin `G12` to `goes12`). -/
def productGC : GridSatProduct :=
  { name := "GOES"
    origin := ["goes12"]
    version := ["v01"]
    date_format := "%Y.%m.%d.%H%M"
    date_pattern := "\\d{4}\\.\\d{2}\\.\\d{2}\\.\\d{4}"
    file_prefix := "GridSat" }

/- ### Timestamp ordering and the GridSat-B1 folder enumeration -/

/-- A lexicographic key for wall-clock instants; for field values within
calendar bounds this encodes the chronological order. -/
def dtKey (t : DateTime) : Nat :=
  (((t.y * 13 + t.m) * 32 + t.d) * 24 + t.hh) * 60 + t.mm

/-- Chronological order on instants. -/
def dtLE (a b : DateTime) : Prop := dtKey a ≤ dtKey b

instance (a b : DateTime) : Decidable (dtLE a b) := by
  unfold dtLE; infer_instance

/-- Calendar bounds on the fields of an instant. -/
def DTValid (t : DateTime) : Prop :=
  1 ≤ t.y ∧ t.y ≤ 9999 ∧ 1 ≤ t.m ∧ t.m ≤ 12 ∧ 1 ≤ t.d ∧ t.d ≤ 31 ∧
    t.hh ≤ 23 ∧ t.mm ≤ 59

instance (t : DateTime) : Decidable (DTValid t) := by
  unfold DTValid; infer_instance

/-- Modelled from the spec: the GridSat-B1 locator's folder enumeration.
The dataset is laid out in one remote folder per calendar year (the
recorded candidate paths are of the form
`1984/GRIDSAT-B1.1984.08.23.00.v02r01.nc`), so the folders for a date range
are the years from the start year to the end year inclusive; the
`GridSatProductLocatorB1` module is not part of the snapshot.  Folders are
identified here by their year number. -/
def gridSatB1Paths (start stop : DateTime) : List Nat :=
  List.range' start.y (stop.y + 1 - start.y)

/- ### The datasource cache -/

/-- One cache slot: folder key, stored listing, and the wall-clock time the
listing was fetched. -/
structure CacheSlot where
  key : String
  listing : List String
  time : Nat

/-- Association lookup in the cache state; newest entries shadow older
ones. -/
def cacheLookup : List CacheSlot → String → Option (List String × Nat)
  | [], _ => none
  | e :: es, k => if e.key = k then some (e.listing, e.time) else cacheLookup es k

/-- Liveness of a cache entry: `none` models the `+inf` time-to-live of the
default construction (never expire); `some ttl` expires entries once their
age reaches `ttl`, so `some 0` disables caching. -/
def isLive (ttl : Option Nat) (fetchTime now : Nat) : Bool :=
  match ttl with
  | none => true
  | some t => now - fetchTime < t

/-- Modelled from the spec: `DatasourceCache.get` — if a live entry exists
for the key, return it without invoking the fetcher; otherwise invoke the
fetcher (its result is passed as `fres`), store it with the current time,
and return it.  The third component records whether the fetcher (a remote
listing call) was invoked. -/
def cacheGet (ttl : Option Nat) (st : List CacheSlot) (k : String)
    (fres : List String) (now : Nat) : List String × List CacheSlot × Bool :=
  match cacheLookup st k with
  | some (ls, t0) =>
    if isLive ttl t0 now then (ls, st, false)
    else (fres, ⟨k, fres, now⟩ :: st, true)
  | none => (fres, ⟨k, fres, now⟩ :: st, true)

/- ### The download orchestrator -/

/-- Modelled from the spec: the locator interface the downloader consumes —
folder enumeration for a time window, filename matching, and timestamp
extraction.  Timestamps are abstracted to integers (seconds). -/
structure LocatorM where
  paths : Int → Int → List String
  fmatch : String → Bool
  getdt : String → Option Int

/-- Modelled from the spec: the datasource interface the downloader
consumes — folder listing, and a per-file fetch outcome oracle (true when
the remote fetch of the file succeeds). -/
structure RemoteM where
  listing : String → List String
  fetchOk : String → Bool

/-- Whether an extracted timestamp falls inside the closed window. -/
def timeOk (t? : Option Int) (lo hi : Int) : Bool :=
  match t? with
  | none => false
  | some t => decide (lo ≤ t) && decide (t ≤ hi)

/-- First-occurrence-wins duplicate suppression (the spec's rule for paths
reachable from two folders). -/
def dedupFirst : List String → List String → List String
  | [], _ => []
  | x :: xs, seen =>
    if seen.contains x then dedupFirst xs seen else x :: dedupFirst xs (x :: seen)

/-- The matched files of every enumerated folder whose extracted timestamp
lies in the closed window, in folder order then listing order, as
folder-relative paths. -/
def candidatesIn (L : LocatorM) (R : RemoteM) (lo hi : Int) : List String :=
  (L.paths lo hi).flatMap fun dir =>
    ((R.listing dir).filter fun n => L.fmatch n && timeOk (L.getdt n) lo hi).map
      fun n => dir ++ n

/-- Modelled from the spec: `Downloader.list_files` — the end time defaults
to the start time when omitted, the configured tolerance is subtracted from
the start and added to the end, folders are enumerated for the expanded
window, and listed filenames are kept when they match and their extracted
timestamp lies in the expanded window (the recorded single-instant download
returns the file stamped `20:00:15` for a `20:00` request with the default
60-second tolerance, so the filter uses the expanded window). -/
def listFilesM (L : LocatorM) (R : RemoteM) (tol : Int) (start : Int)
    (stop? : Option Int) : List String :=
  let stop := stop?.getD start
  dedupFirst (candidatesIn L R (start - tol) (stop + tol)) []

/-- Per-file outcome reported by the downloader. -/
inductive Outcome where
  | present
  | success
  | failure
deriving DecidableEq, Repr

/-- The observable result of a `get_files` run: the per-file reports in
order, the paths for which a remote fetch was attempted, the paths ensured
present, the final repository contents, and whether the run raised. -/
structure GetResult where
  reports : List (String × Outcome)
  fetched : List String
  ensured : List String
  repo : List String
  raised : Bool
deriving DecidableEq, Repr

/-- Modelled from the spec: `Downloader.get_files` — for each path in
order, a path already in the repository is reported as already downloaded
and skipped; otherwise the file is fetched and written.  Per the note
recorded in the example notebooks ("Any error will raise an exception
object"), a failed fetch raises, aborting the remaining paths; files
already written stay in the repository. -/
def getFilesGo : List String → List String → (String → Bool) → GetResult
  | [], repo, _ => ⟨[], [], [], repo, false⟩
  | p :: ps, repo, ok =>
    if repo.contains p then
      let r := getFilesGo ps repo ok
      ⟨(p, .present) :: r.reports, r.fetched, p :: r.ensured, r.repo, r.raised⟩
    else if ok p then
      let r := getFilesGo ps (p :: repo) ok
      ⟨(p, .success) :: r.reports, p :: r.fetched, p :: r.ensured, r.repo, r.raised⟩
    else
      ⟨[(p, .failure)], [p], [], repo, true⟩

/-- Modelled from the spec: `Downloader.download_files` — list the files
for the range, then ensure each is present locally. -/
def downloadFilesM (L : LocatorM) (R : RemoteM) (tol : Int) (start : Int)
    (stop? : Option Int) (repo : List String) : GetResult :=
  getFilesGo (listFilesM L R tol start stop?) repo R.fetchOk

/- ### The product catalog and prototype resolution -/

/-- An attribute value of a catalog entry: a plain string or a string
list. -/
inductive AttrVal where
  | s (v : String)
  | l (vs : List String)
deriving DecidableEq, Repr

/-- An attribute map; earlier bindings shadow later ones. -/
abbrev AttrMap := List (String × AttrVal)

/-- First-binding lookup in an attribute map. -/
def amGet : AttrMap → String → Option AttrVal
  | [], _ => none
  | (k, v) :: r, a => if k = a then some v else amGet r a

/-- Merge where the update's bindings win over the base's. -/
def amMerge (base upd : AttrMap) : AttrMap := upd ++ base

/-- Left-biased choice on optional attribute values. -/
def oget (x y : Option AttrVal) : Option AttrVal :=
  match x with
  | some v => some v
  | none => y

/-- Modelled from the spec: one catalog entry of `settings.json` — the
parent names (`inherit`), the entry's own default attribute values
(`prototype`), and its allowed-value restrictions (`constraints`). -/
structure CatEntry where
  inherit : List String
  proto : AttrMap
  constr : AttrMap
deriving DecidableEq

/-- A catalog: entry names mapped to entries. -/
abbrev Catalog := List (String × CatEntry)

/-- Entry lookup in a catalog. -/
def catLookup : Catalog → String → Option CatEntry
  | [], _ => none
  | (k, e) :: r, n => if k = n then some e else catLookup r n

/-- One resolution layer: resolve each name of the list using `recur` for
its parents, overlay the entry's own prototype, and merge the names left to
right with later names overriding earlier ones. -/
def resolveStep (cat : Catalog) (recur : List String → Option AttrMap) :
    List String → Option AttrMap
  | [] => some []
  | name :: rest =>
    match catLookup cat name with
    | none => none
    | some e =>
      match recur e.inherit with
      | none => none
      | some pm =>
        match resolveStep cat recur rest with
        | none => none
        | some rm => some (amMerge (amMerge pm e.proto) rm)

/-- Modelled from the spec: resolution of a list of catalog entry names
into a merged default-attribute map.  Each name's parents are resolved
first (recursively, left to right, later parents overriding earlier ones)
and the entry's own prototype is overlaid on top; names later in the list
override earlier ones.  The fuel bounds the inheritance depth (cycles are a
load-time configuration error). -/
def resolveNames : Nat → Catalog → List String → Option AttrMap
  | 0, _, _ => none
  | fuel + 1, cat, names => resolveStep cat (resolveNames fuel cat) names

/- ### GOES second-generation product validation -/

/-- The origin identifiers accepted by `GOES2GImagerProduct`, as recorded
in the notebook error message. -/
def AVAILABLE_ORIGIN : List String :=
  ["G08", "G09", "G10", "G11", "G12", "G13", "G14", "G15"]

/-- The scene identifiers accepted by `GOES2GImagerProduct`. -/
def AVAILABLE_SCENE : List String := ["C", "F"]

/-- The versions accepted by `GOES2GImagerProduct`. -/
def AVAILABLE_VERSION : List String := ["v01"]

/-- A constraint violation: the offending attribute, the rejected value,
and the allowed values, exactly the data rendered in the recorded error
messages (for example `Invalid origin_id: G20. Available origin IDs:
G08 ... G15`). -/
structure ConstraintViolation where
  attr : String
  value : String
  allowed : List String
deriving DecidableEq, Repr

/-- A validated second-generation imager product request. -/
structure GOES2GImagerProduct where
  scene_id : String
  origin_id : String
  product_id : String
  version : String
deriving DecidableEq, Repr

/-- Modelled from the spec: the `GOES2GImagerProduct` constructor
validation — every requested attribute value must belong to its declared
allowed-value set, and the raised `ValueError` carries the offending
attribute, the rejected value and the allowed values, as in the recorded
notebook outputs.  The product identifier is fixed to `MCMIP`. -/
def mkGOES2GImagerProduct (scene origin ver : String) :
    Except ConstraintViolation GOES2GImagerProduct :=
  if AVAILABLE_SCENE.contains scene = false then
    .error ⟨"scene_id", scene, AVAILABLE_SCENE⟩
  else if AVAILABLE_ORIGIN.contains origin = false then
    .error ⟨"origin_id", origin, AVAILABLE_ORIGIN⟩
  else if AVAILABLE_VERSION.contains ver = false then
    .error ⟨"version", ver, AVAILABLE_VERSION⟩
  else
    .ok ⟨scene, origin, "MCMIP", ver⟩

/- ### Concrete fixtures used by witnesses and counterexamples -/

/-- A one-folder locator whose only timestamped file is `x` at time 100. -/
def locFix : LocatorM :=
  { paths := fun _ _ => ["d/"]
    fmatch := fun _ => true
    getdt := fun n => if n = "x" then some 100 else none }

/-- A remote with a single listed file whose fetches always succeed. -/
def remFix : RemoteM :=
  { listing := fun _ => ["x"]
    fetchOk := fun _ => true }

/-- A fetch oracle that fails exactly on the path `b`. -/
def okExceptB : String → Bool := fun p => p != "b"

/-- The catalog of the spec's multiple-inheritance scenario: entry `X`
inherits `base` (whose prototype sets `channel` to the empty list) and then
`family` (whose prototype sets `channel` to `C1, C2`), and has no explicit
value of its own. -/
def catFix : Catalog :=
  [ ("X", ⟨["base", "family"], [], []⟩)
  , ("base", ⟨[], [("channel", .l [])], []⟩)
  , ("family", ⟨[], [("channel", .l ["C1", "C2"])], []⟩) ]

/-- The GridSat-B1 filename of the first recorded notebook cell. -/
def fnB1a : String := "GRIDSAT-B1.1980.01.01.00.v02r01.nc"

/-- A filename that matches the GridSat-B1 pattern but whose month field is
13, which is not a calendar month. -/
def fnB1bad : String := "GRIDSAT-B1.1980.13.01.00.v02r01.nc"

/-- The first GridSat-GOES filename of the recorded notebook cell. -/
def fnGC1 : String := "GridSat-GOES.goes12.1994.09.01.0000.v01.nc"

/-- The second GridSat-GOES filename of the recorded notebook cell (the one
whose `startswith`/`endswith` checks are recorded as `False`). -/
def fnGC2 : String := "GridSat-GOES.goes12.2017.12.31.2330.v01.nc"

/- ### Generic facts about the matcher -/

/-- Matching is stable under extending the input on the right: the
extension is simply carried through to the remainder. -/
theorem matchEnds_extend (p : Pattern) :
    ∀ (s t r : List Char), r ∈ matchEnds p s → r ++ t ∈ matchEnds p (s ++ t) := by
  induction p with
  | lit c =>
    intro s t r h
    cases s with
    | nil => simp [matchEnds] at h
    | cons x s' =>
      simp only [matchEnds] at h ⊢
      split at h
      · simp_all
      · simp at h
  | dot =>
    intro s t r h
    cases s with
    | nil => simp [matchEnds] at h
    | cons x s' => simp_all [matchEnds]
  | digitP =>
    intro s t r h
    cases s with
    | nil => simp [matchEnds] at h
    | cons x s' =>
      simp only [matchEnds] at h ⊢
      split at h
      · simp_all
      · simp at h
  | eps =>
    intro s t r h
    simp only [matchEnds, List.mem_singleton] at h ⊢
    simp [h]
  | cat p q ihp ihq =>
    intro s t r h
    simp only [matchEnds, List.mem_flatMap] at h ⊢
    obtain ⟨r1, hr1, hr⟩ := h
    exact ⟨r1 ++ t, ihp s t r1 hr1, ihq r1 t r hr⟩
  | alt p q ihp ihq =>
    intro s t r h
    simp only [matchEnds, List.mem_append] at h ⊢
    rcases h with h | h
    · exact Or.inl (ihp s t r h)
    · exact Or.inr (ihq s t r h)

/-- Every remainder returned by the matcher is a suffix of the input, and
the consumed prefix is itself accepted by the pattern. -/
theorem matchEnds_consume (p : Pattern) :
    ∀ (s r : List Char), r ∈ matchEnds p s →
      ∃ u, s = u ++ r ∧ [] ∈ matchEnds p u := by
  induction p with
  | lit c =>
    intro s r h
    cases s with
    | nil => simp [matchEnds] at h
    | cons x s' =>
      simp only [matchEnds] at h
      split at h
      · rename_i hx
        simp only [List.mem_singleton] at h
        subst h; subst hx
        exact ⟨[x], rfl, by simp [matchEnds]⟩
      · simp at h
  | dot =>
    intro s r h
    cases s with
    | nil => simp [matchEnds] at h
    | cons x s' =>
      simp only [matchEnds, List.mem_singleton] at h
      subst h
      exact ⟨[x], rfl, by simp [matchEnds]⟩
  | digitP =>
    intro s r h
    cases s with
    | nil => simp [matchEnds] at h
    | cons x s' =>
      simp only [matchEnds] at h
      split at h
      · rename_i hx
        simp only [List.mem_singleton] at h
        subst h
        exact ⟨[x], rfl, by simp [matchEnds, hx]⟩
      · simp at h
  | eps =>
    intro s r h
    simp only [matchEnds, List.mem_singleton] at h
    subst h
    exact ⟨[], rfl, by simp [matchEnds]⟩
  | cat p q ihp ihq =>
    intro s r h
    simp only [matchEnds, List.mem_flatMap] at h
    obtain ⟨r1, hr1, hr⟩ := h
    obtain ⟨u1, hs, hu1⟩ := ihp s r1 hr1
    obtain ⟨u2, hr1eq, hu2⟩ := ihq r1 r hr
    refine ⟨u1 ++ u2, by simp [hs, hr1eq], ?_⟩
    simp only [matchEnds, List.mem_flatMap]
    exact ⟨u2, by simpa using matchEnds_extend p u1 u2 [] hu1, hu2⟩
  | alt p q ihp ihq =>
    intro s r h
    simp only [matchEnds, List.mem_append] at h
    rcases h with h | h
    · obtain ⟨u, hs, hu⟩ := ihp s r h
      exact ⟨u, hs, by simp [matchEnds, List.mem_append, hu]⟩
    · obtain ⟨u, hs, hu⟩ := ihq s r h
      exact ⟨u, hs, by simp [matchEnds, List.mem_append, hu]⟩

/-- Unfolding the matcher over a cons of atoms. -/
theorem matchEnds_catList_cons (x : Pattern) (xs : List Pattern) (s : List Char) :
    matchEnds (catList (x :: xs)) s = (matchEnds x s).flatMap (matchEnds (catList xs)) := rfl

/-- The matcher distributes over appended atom lists. -/
theorem matchEnds_catList_append :
    ∀ (xs ys : List Pattern) (s : List Char),
      matchEnds (catList (xs ++ ys)) s =
        (matchEnds (catList xs) s).flatMap (matchEnds (catList ys)) := by
  intro xs
  induction xs with
  | nil =>
    intro ys s
    simp [catList, matchEnds]
  | cons x xs ih =>
    intro ys s
    rw [List.cons_append, matchEnds_catList_cons, matchEnds_catList_cons,
      List.flatMap_assoc]
    exact List.flatMap_congr fun r _ => ih ys r

/-- A literal atom list matches exactly the corresponding characters. -/
theorem matchEnds_litAtoms :
    ∀ (w s r : List Char), r ∈ matchEnds (catList (litAtoms w)) s ↔ s = w ++ r := by
  intro w
  induction w with
  | nil =>
    intro s r
    simp [litAtoms, catList, matchEnds, eq_comm]
  | cons c w ih =>
    intro s r
    cases s with
    | nil =>
      simp [litAtoms, matchEnds_catList_cons, matchEnds]
    | cons x s' =>
      simp only [litAtoms, List.map_cons, matchEnds_catList_cons, matchEnds,
        List.mem_flatMap]
      constructor
      · rintro ⟨r1, hr1, hr⟩
        split at hr1
        · rename_i hx
          subst hx
          have h1 : r1 = s' := by simpa using hr1
          subst h1
          have := (ih r1 r).mp hr
          simp [this]
        · simp at hr1
      · intro h
        simp only [List.cons_append, List.cons.injEq] at h
        obtain ⟨hx, hs⟩ := h
        refine ⟨s', ?_, (ih s' r).mpr hs⟩
        simp [hx]

/-- Membership in the capture-group list, unfolded. -/
theorem mem_captures_iff (pre dat suf : Pattern) (s ds : List Char) :
    ds ∈ captures pre dat suf s ↔
      ∃ r1, r1 ∈ matchEnds pre s ∧ ∃ r2, r2 ∈ matchEnds dat r1 ∧
        [] ∈ matchEnds suf r2 ∧ ds = r1.take (r1.length - r2.length) := by
  simp only [captures, List.mem_flatMap, List.mem_filterMap]
  constructor
  · rintro ⟨r1, hr1, r2, hr2, hds⟩
    split at hds
    · rename_i hsuf
      exact ⟨r1, hr1, r2, hr2, hsuf, (Option.some.injEq .. ▸ hds).symm⟩
    · simp at hds
  · rintro ⟨r1, hr1, r2, hr2, hsuf, hds⟩
    exact ⟨r1, hr1, r2, hr2, by simp [hsuf, hds]⟩

/-- A nonempty list has a member. -/
theorem list_ne_nil_iff_exists_mem {α : Type} (l : List α) :
    l ≠ [] ↔ ∃ x, x ∈ l := by
  cases l <;> simp

/-- The bridge between `re.fullmatch` on the full concatenated pattern and
the three-part capture decomposition `pre(dat)suf`. -/
theorem fullmatch_split (A B C : List Pattern) (s : List Char) :
    fullmatch (catList (A ++ [catList B] ++ C)) s = true ↔
      captures (catList A) (catList B) (catList C) s ≠ [] := by
  rw [fullmatch, decide_eq_true_iff, list_ne_nil_iff_exists_mem]
  have hsplit : A ++ [catList B] ++ C = A ++ ([catList B] ++ C) := by simp
  rw [hsplit, matchEnds_catList_append]
  constructor
  · intro h
    simp only [List.mem_flatMap] at h
    obtain ⟨r1, hr1, hmid⟩ := h
    rw [List.singleton_append, matchEnds_catList_cons] at hmid
    simp only [List.mem_flatMap] at hmid
    obtain ⟨r2, hr2, hend⟩ := hmid
    refine ⟨r1.take (r1.length - r2.length), ?_⟩
    rw [mem_captures_iff]
    exact ⟨r1, hr1, r2, hr2, hend, rfl⟩
  · rintro ⟨ds, hds⟩
    rw [mem_captures_iff] at hds
    obtain ⟨r1, hr1, r2, hr2, hend, _⟩ := hds
    simp only [List.mem_flatMap]
    refine ⟨r1, hr1, ?_⟩
    rw [List.singleton_append, matchEnds_catList_cons]
    simp only [List.mem_flatMap]
    exact ⟨r2, hr2, hend⟩

/-- Every captured group is a genuine infix of the input and is itself
accepted by the capture pattern. -/
theorem captures_decompose (pre dat suf : Pattern) (s ds : List Char)
    (h : ds ∈ captures pre dat suf s) :
    ∃ u v, s = u ++ ds ++ v ∧ [] ∈ matchEnds dat ds ∧ [] ∈ matchEnds pre u := by
  rw [mem_captures_iff] at h
  obtain ⟨r1, hr1, r2, hr2, hend, hds⟩ := h
  obtain ⟨u1, hs, hu1⟩ := matchEnds_consume pre s r1 hr1
  obtain ⟨u2, hr1eq, hu2⟩ := matchEnds_consume dat r1 r2 hr2
  have hlen : r1.length - r2.length = u2.length := by
    rw [hr1eq]; simp
  have hds2 : ds = u2 := by
    rw [hds, hlen, hr1eq, List.take_left]
  subst hds2
  exact ⟨u1, r2, by rw [hs, hr1eq, List.append_assoc], hu2, hu1⟩

/- ### Facts about date parsing and rendering -/

/-- The code-point bounds of a digit character. -/
theorem digit_toNat {c : Char} (h : c.isDigit = true) :
    48 ≤ c.toNat ∧ c.toNat ≤ 57 := by
  simp [Char.isDigit] at h
  obtain ⟨h1, h2⟩ := h
  rw [UInt32.le_def, BitVec.le_def] at h1 h2
  have e1 : ((48 : UInt32)).toBitVec.toNat = 48 := rfl
  have e2 : ((57 : UInt32)).toBitVec.toNat = 57 := rfl
  unfold Char.toNat UInt32.toNat
  rw [e1] at h1
  rw [e2] at h2
  exact ⟨h1, h2⟩

/-- The value of a digit character is below ten. -/
theorem digitVal_lt {c : Char} (h : c.isDigit = true) : digitVal c < 10 := by
  have := digit_toNat h
  unfold digitVal
  omega

/-- Rendering the value of a digit character gives the character back. -/
theorem digitChr_digitVal {c : Char} (h : c.isDigit = true) :
    digitChr (digitVal c) = c := by
  obtain ⟨h1, h2⟩ := digit_toNat h
  have hinj : ∀ b : Char, c.toNat = b.toNat → c = b :=
    fun b hb => Char.ext (UInt32.ext hb)
  unfold digitVal
  set n := c.toNat with hn
  interval_cases n
  · exact (hinj '0' rfl).symm
  · exact (hinj '1' rfl).symm
  · exact (hinj '2' rfl).symm
  · exact (hinj '3' rfl).symm
  · exact (hinj '4' rfl).symm
  · exact (hinj '5' rfl).symm
  · exact (hinj '6' rfl).symm
  · exact (hinj '7' rfl).symm
  · exact (hinj '8' rfl).symm
  · exact (hinj '9' rfl).symm

/-- A successful four-digit parse decomposes the input and re-renders to
the consumed digits. -/
theorem parse4_spec {s r : List Char} {v : Nat} (h : parse4 s = some (v, r)) :
    s = pad4 v ++ r ∧ v ≤ 9999 := by
  match s with
  | [] => simp [parse4] at h
  | [a] => simp [parse4] at h
  | [a, b] => simp [parse4] at h
  | [a, b, c] => simp [parse4] at h
  | a :: b :: c :: d :: r' =>
    simp only [parse4] at h
    split at h
    · rename_i hd
      simp only [Bool.and_eq_true] at hd
      obtain ⟨⟨⟨ha, hb⟩, hc⟩, hdd⟩ := hd
      simp only [Option.some.injEq, Prod.mk.injEq] at h
      obtain ⟨hv, hr⟩ := h
      subst hr
      have la := digitVal_lt ha
      have lb := digitVal_lt hb
      have lc := digitVal_lt hc
      have ld := digitVal_lt hdd
      constructor
      · have e1 : v / 1000 % 10 = digitVal a := by omega
        have e2 : v / 100 % 10 = digitVal b := by omega
        have e3 : v / 10 % 10 = digitVal c := by omega
        have e4 : v % 10 = digitVal d := by omega
        simp only [pad4, e1, e2, e3, e4,
          digitChr_digitVal ha, digitChr_digitVal hb,
          digitChr_digitVal hc, digitChr_digitVal hdd]
        rfl
      · omega
    · simp at h

/-- A successful two-digit parse decomposes the input, re-renders to the
consumed digits, and lands in the requested range. -/
theorem parse2_spec {lo hi : Nat} {s r : List Char} {v : Nat}
    (h : parse2 lo hi s = some (v, r)) :
    s = pad2 v ++ r ∧ lo ≤ v ∧ v ≤ hi ∧ v ≤ 99 := by
  match s with
  | [] => simp [parse2] at h
  | [a] => simp [parse2] at h
  | a :: b :: r' =>
    simp only [parse2] at h
    split at h
    · rename_i hd
      simp only [Bool.and_eq_true, decide_eq_true_eq] at hd
      obtain ⟨⟨⟨ha, hb⟩, hlo⟩, hhi⟩ := hd
      simp only [Option.some.injEq, Prod.mk.injEq] at h
      obtain ⟨hv, hr⟩ := h
      subst hr
      have la := digitVal_lt ha
      have lb := digitVal_lt hb
      refine ⟨?_, by omega, by omega, by omega⟩
      have e1 : v / 10 % 10 = digitVal a := by omega
      have e2 : v % 10 = digitVal b := by omega
      simp only [pad2, e1, e2, digitChr_digitVal ha, digitChr_digitVal hb]
      rfl
    · simp at h

/-- The GridSat-B1 date-format directives. -/
theorem fmtB1_eq :
    parseFormat productB1.date_format.toList =
      [.yearD, .litD '.', .monthD, .litD '.', .dayD, .litD '.', .hourD] := rfl

/-- Unfolding one directive of a parse run. -/
theorem runDirs_cons (dir : Directive) (ds : List Directive) (s : List Char)
    (t : DateTime) :
    runDirs (dir :: ds) s t =
      (stepDir dir s t).bind fun p => runDirs ds p.2 p.1 := by
  cases h : stepDir dir s t with
  | none => simp [runDirs, h]
  | some p => cases p; simp [runDirs, h]

/-- Round trip for the GridSat-B1 date format: a string accepted by
`strptime` is reproduced by re-rendering the parsed timestamp. -/
theorem strptime_roundtrip_B1 (s : List Char) (t : DateTime)
    (h : strptime (parseFormat productB1.date_format.toList) s = some t) :
    renderDirs (parseFormat productB1.date_format.toList) t = s := by
  rw [fmtB1_eq] at h ⊢
  unfold strptime at h
  rcases hrun : runDirs [.yearD, .litD '.', .monthD, .litD '.', .dayD, .litD '.', .hourD]
      s dtDefault with _ | t0
  · rw [hrun] at h; simp at h
  rw [hrun] at h
  simp only at h
  split at h
  case isFalse => simp at h
  case isTrue hvalid =>
  simp only [Option.some.injEq] at h
  subst h
  rw [runDirs_cons] at hrun
  rcases h4 : parse4 s with _ | ⟨vy, r1⟩
  · simp [stepDir, h4] at hrun
  simp only [stepDir, h4, Option.map_some', Option.some_bind] at hrun
  rcases r1 with _ | ⟨x1, r2⟩
  · simp [runDirs_cons, stepDir] at hrun
  rw [runDirs_cons] at hrun
  by_cases hx1 : x1 = '.'
  case neg => simp [stepDir, hx1] at hrun
  simp only [stepDir, hx1, if_pos, Option.some_bind] at hrun
  rw [runDirs_cons] at hrun
  rcases h2m : parse2 1 12 r2 with _ | ⟨vm, r3⟩
  · simp [stepDir, h2m] at hrun
  simp only [stepDir, h2m, Option.map_some', Option.some_bind] at hrun
  rcases r3 with _ | ⟨x2, r4⟩
  · simp [runDirs_cons, stepDir] at hrun
  rw [runDirs_cons] at hrun
  by_cases hx2 : x2 = '.'
  case neg => simp [stepDir, hx2] at hrun
  simp only [stepDir, hx2, if_pos, Option.some_bind] at hrun
  rw [runDirs_cons] at hrun
  rcases h2d : parse2 1 31 r4 with _ | ⟨vd, r5⟩
  · simp [stepDir, h2d] at hrun
  simp only [stepDir, h2d, Option.map_some', Option.some_bind] at hrun
  rcases r5 with _ | ⟨x3, r6⟩
  · simp [runDirs_cons, stepDir] at hrun
  rw [runDirs_cons] at hrun
  by_cases hx3 : x3 = '.'
  case neg => simp [stepDir, hx3] at hrun
  simp only [stepDir, hx3, if_pos, Option.some_bind] at hrun
  rw [runDirs_cons] at hrun
  rcases h2h : parse2 0 23 r6 with _ | ⟨vh, r7⟩
  · simp [stepDir, h2h] at hrun
  simp only [stepDir, h2h, Option.map_some', Option.some_bind] at hrun
  rcases r7 with _ | ⟨x4, r8⟩
  swap
  · simp [runDirs] at hrun
  simp only [runDirs, Option.some.injEq] at hrun
  obtain ⟨hy, _⟩ := parse4_spec h4
  obtain ⟨hm, _⟩ := parse2_spec h2m
  obtain ⟨hd, _⟩ := parse2_spec h2d
  obtain ⟨hhh, _⟩ := parse2_spec h2h
  subst hrun
  simp only [renderDirs, List.flatMap_cons, List.flatMap_nil, List.append_nil]
  rw [hy, hm, hd, hhh]
  simp [hx1, hx2, hx3, dtDefault]

/- ### Structure of the concrete compiled patterns -/

/-- The GridSat-B1 filename pattern splits into prefix atoms, the capture
group, and suffix atoms. -/
theorem b1_atoms_split :
    compileAtoms (getFilenamePattern productB1) =
      compileAtoms (getPrefixString productB1) ++
        [catList (compileAtoms productB1.date_pattern)] ++
        compileAtoms (getSuffixString productB1) := by decide

/-- Matching the full GridSat-B1 pattern is equivalent to a nonempty
capture list. -/
theorem gsMatch_B1_iff_captures (f : String) :
    gsMatch productB1 f = true ↔ capturesOf productB1 f.toList ≠ [] := by
  unfold gsMatch capturesOf compilePattern
  rw [b1_atoms_split]
  exact fullmatch_split _ _ _ _

/-- C2.  The claim as stated fails (see the counterexample: a filename
whose month field is 13 matches the pattern but `get_datetime` raises the
`strptime` error).  Amended claim: if `match` is false, `get_datetime`
fails with the pattern-mismatch error; if `match` is true it never fails
with the pattern-mismatch error; and whenever it succeeds, the parsed
timestamp re-rendered through the dataset's date format reproduces the
captured timestamp substring of the filename. -/
theorem c2_match_get_datetime (f : String) :
    (gsMatch productB1 f = false →
      gsGetDatetime productB1 f = .error .patternMismatch) ∧
    (gsMatch productB1 f = true →
      gsGetDatetime productB1 f ≠ .error .patternMismatch) ∧
    (∀ t, gsGetDatetime productB1 f = .ok t →
      gsMatch productB1 f = true ∧
      ∃ ds u v, (capturesOf productB1 f.toList).head? = some ds ∧
        f.toList = u ++ ds ++ v ∧
        renderDirs (parseFormat productB1.date_format.toList) t = ds) := by
  refine ⟨?_, ?_, ?_⟩
  · intro hm
    have hc : capturesOf productB1 f.toList = [] := by
      by_contra hne
      have hmt : gsMatch productB1 f = true := (gsMatch_B1_iff_captures f).mpr hne
      rw [hm] at hmt
      exact Bool.false_ne_true hmt
    unfold gsGetDatetime
    rw [hc]
    rfl
  · intro hm
    have hc := (gsMatch_B1_iff_captures f).mp hm
    unfold gsGetDatetime
    rcases hh : (capturesOf productB1 f.toList).head? with _ | ds
    · rw [List.head?_eq_none_iff] at hh
      exact absurd hh hc
    · rcases hst : strptime (parseFormat productB1.date_format.toList) ds with _ | t0
      · have hst2 : strptime (parseFormat productB1.date_format.data) ds = none := hst
        simp [hst2]
      · have hst2 : strptime (parseFormat productB1.date_format.data) ds = some t0 := hst
        simp [hst2]
  · intro t hok
    unfold gsGetDatetime at hok
    rcases hh : (capturesOf productB1 f.toList).head? with _ | ds
    · rw [hh] at hok; exact absurd hok (by simp)
    rw [hh] at hok
    have hok2 : (match strptime (parseFormat productB1.date_format.toList) ds with
        | some t => (Except.ok t : Except GSErr DateTime)
        | none => Except.error GSErr.invalidDate) = Except.ok t := hok
    rcases hst : strptime (parseFormat productB1.date_format.toList) ds with _ | t0
    · rw [hst] at hok2; exact absurd hok2 (by simp)
    rw [hst] at hok2
    simp only [Except.ok.injEq] at hok2
    subst hok2
    have hmem : ds ∈ capturesOf productB1 f.toList := by
      rw [List.head?_eq_some_iff] at hh
      obtain ⟨ys, hys⟩ := hh
      rw [hys]
      exact List.mem_cons_self ds ys
    constructor
    · rw [gsMatch_B1_iff_captures]
      intro hnil
      rw [hnil] at hh
      exact absurd hh (by simp)
    · obtain ⟨u, v, hsplit, _, _⟩ :=
        captures_decompose _ _ _ _ _ hmem
      exact ⟨ds, u, v, rfl, hsplit, strptime_roundtrip_B1 ds t0 hst⟩

/-- C2, counterexample: the filename with month field 13 matches the
GridSat-B1 pattern, yet `get_datetime` fails — with the invalid-date error,
not the pattern-mismatch error — refuting "match implies `timestampOf`
does not fail". -/
theorem c2_counterexample :
    gsMatch productB1 fnB1bad = true ∧
      gsGetDatetime productB1 fnB1bad = .error .invalidDate := by
  constructor
  · decide
  · rfl

/-- C2, witness: the recorded notebook filename, with its recorded
timestamp. -/
theorem c2_witness :
    gsGetDatetime productB1 fnB1a = .ok ⟨1980, 1, 1, 0, 0⟩ ∧
      (gsMatch productB1 fnB1a = true ∧
        ∃ ds u v, (capturesOf productB1 fnB1a.toList).head? = some ds ∧
          fnB1a.toList = u ++ ds ++ v ∧
          renderDirs (parseFormat productB1.date_format.toList) ⟨1980, 1, 1, 0, 0⟩ = ds) :=
  ⟨rfl, (c2_match_get_datetime fnB1a).2.2 ⟨1980, 1, 1, 0, 0⟩ rfl⟩

/-- The GridSat-GOES filename pattern begins with the literal atoms of
`GridSat-GOES`. -/
theorem gc_atoms_head :
    compileAtoms (getFilenamePattern productGC) =
      litAtoms "GridSat-GOES".toList ++
        (compileAtoms (getFilenamePattern productGC)).drop 12 := by decide

/-- The GridSat-GOES filename pattern ends with the literal atoms of
`nc`. -/
theorem gc_atoms_tail :
    compileAtoms (getFilenamePattern productGC) =
      (compileAtoms (getFilenamePattern productGC)).take 19 ++
        litAtoms "nc".toList := by decide

/-- C8.  The claim as stated fails: `get_prefix`/`get_suffix` return regex
fragments containing alternation groups (for non-empty origin and version
sets), so a filename can match the compiled pattern without passing the
exact `startswith`/`endswith` checks — exactly what the notebook records
(`False`, `False`, `True`).  Amended claim: `match` is true only if the
filename matches the compiled pattern built from the prefix, timestamp and
suffix fragments, which guarantees the fixed literal tokens: the filename
starts with the dataset's literal leading token (`GridSat-GOES`) and ends
with the literal extension tail (`nc`). -/
theorem c8_match_literal_tokens (f : String) (h : gsMatch productGC f = true) :
    strStarts f "GridSat-GOES" = true ∧ strEnds f "nc" = true := by
  unfold gsMatch compilePattern at h
  rw [fullmatch, decide_eq_true_iff] at h
  constructor
  · have h1 := h
    rw [gc_atoms_head, matchEnds_catList_append] at h1
    simp only [List.mem_flatMap] at h1
    obtain ⟨r1, hr1, _⟩ := h1
    have hf := (matchEnds_litAtoms _ _ _).mp hr1
    rw [strStarts, List.isPrefixOf_iff_prefix]
    exact ⟨r1, hf.symm⟩
  · have h1 := h
    rw [gc_atoms_tail, matchEnds_catList_append] at h1
    simp only [List.mem_flatMap] at h1
    obtain ⟨r1, hr1, hend⟩ := h1
    have hr1nc := (matchEnds_litAtoms _ _ _).mp hend
    rw [List.append_nil] at hr1nc
    obtain ⟨u, hu, _⟩ := matchEnds_consume _ _ _ hr1
    rw [strEnds, List.isSuffixOf_iff_suffix]
    exact ⟨u, by rw [hu, hr1nc]⟩

/-- C8, counterexample: the recorded GridSat-GOES filename matches the
compiled pattern, yet fails both the exact `startswith(get_prefix())` and
`endswith(get_suffix())` checks, as recorded in the testing notebook. -/
theorem c8_counterexample :
    gsMatch productGC fnGC2 = true ∧
      strStarts fnGC2 (getPrefixString productGC) = false ∧
      strEnds fnGC2 (getSuffixString productGC) = false := by
  refine ⟨by decide, by decide, by decide⟩

/-- C8, witness: the first recorded GridSat-GOES filename. -/
theorem c8_witness :
    gsMatch productGC fnGC1 = true ∧
      (strStarts fnGC1 "GridSat-GOES" = true ∧ strEnds fnGC1 "nc" = true) :=
  ⟨by decide, c8_match_literal_tokens fnGC1 (by decide)⟩

/- ### C1: folder enumeration for a date range -/

/-- Chronological order gives year order, for calendar-valid instants. -/
theorem year_le_of_dtLE {a b : DateTime} (ha : DTValid a) (hb : DTValid b)
    (h : dtLE a b) : a.y ≤ b.y := by
  unfold DTValid at ha hb
  unfold dtLE dtKey at h
  omega

/-- A strictly later year is chronologically later, whatever the remaining
fields, for calendar-valid instants. -/
theorem dtLE_of_year_lt {a b : DateTime} (ha : DTValid a) (hb : DTValid b)
    (h : a.y < b.y) : dtLE a b := by
  unfold DTValid at ha hb
  unfold dtLE dtKey
  omega

/-- Consecutive integer runs are chained by the successor relation. -/
theorem chain'_succ_range' : ∀ (s n : Nat),
    List.Chain' (fun a b => b = a + 1) (List.range' s n) := by
  intro s n
  induction n generalizing s with
  | zero => simp
  | succ n ih =>
    rw [List.range'_succ, List.chain'_cons']
    refine ⟨?_, ih (s + 1)⟩
    intro y hy
    cases n with
    | zero => simp at hy
    | succ n =>
      rw [List.range'_succ] at hy
      simp only [List.head?_cons, Option.mem_def, Option.some.injEq] at hy
      omega

/-- C1.  For every valid range with `start <= stop`, the GridSat-B1 folder
enumeration returns the consecutive run of years from the start year to the
end year: chronologically ordered with no gaps (each successive folder is
the next year), duplicate-free, containing exactly the years between the
endpoints (hence the folders of the start and end instants, even though a
year folder spans more than the requested range), covering every instant of
the range, and minimal (every returned folder's year is realised by some
instant inside the range). -/
theorem c1_foldersFor_minimal_cover (start stop : DateTime)
    (hs : DTValid start) (he : DTValid stop) (hle : dtLE start stop) :
    List.Chain' (fun a b => b = a + 1) (gridSatB1Paths start stop) ∧
    (gridSatB1Paths start stop).Nodup ∧
    (∀ y, y ∈ gridSatB1Paths start stop ↔ start.y ≤ y ∧ y ≤ stop.y) ∧
    start.y ∈ gridSatB1Paths start stop ∧
    stop.y ∈ gridSatB1Paths start stop ∧
    (∀ t, DTValid t → dtLE start t → dtLE t stop →
      t.y ∈ gridSatB1Paths start stop) ∧
    (∀ y, y ∈ gridSatB1Paths start stop →
      ∃ t, DTValid t ∧ dtLE start t ∧ dtLE t stop ∧ t.y = y) := by
  have hyy : start.y ≤ stop.y := year_le_of_dtLE hs he hle
  have hmem : ∀ y, y ∈ gridSatB1Paths start stop ↔ start.y ≤ y ∧ y ≤ stop.y := by
    intro y
    unfold gridSatB1Paths
    rw [List.mem_range'_1]
    omega
  refine ⟨chain'_succ_range' _ _, List.nodup_range' _ _, hmem, ?_, ?_, ?_, ?_⟩
  · exact (hmem start.y).mpr ⟨le_refl _, hyy⟩
  · exact (hmem stop.y).mpr ⟨hyy, le_refl _⟩
  · intro t ht h1 h2
    exact (hmem t.y).mpr ⟨year_le_of_dtLE hs ht h1, year_le_of_dtLE ht he h2⟩
  · intro y hy
    rw [hmem y] at hy
    by_cases hsy : y = start.y
    · exact ⟨start, hs, le_refl _, hle, hsy.symm⟩
    · have hvy : DTValid ⟨y, 1, 1, 0, 0⟩ := by
        show 1 ≤ y ∧ y ≤ 9999 ∧ 1 ≤ 1 ∧ 1 ≤ 12 ∧ 1 ≤ 1 ∧ 1 ≤ 31 ∧ 0 ≤ 23 ∧ 0 ≤ 59
        unfold DTValid at hs he
        omega
      refine ⟨⟨y, 1, 1, 0, 0⟩, hvy, ?_, ?_, rfl⟩
      · refine dtLE_of_year_lt hs hvy ?_
        show start.y < y
        omega
      · by_cases hey : y = stop.y
        · subst hey
          show dtKey ⟨stop.y, 1, 1, 0, 0⟩ ≤ dtKey stop
          unfold DTValid at he
          unfold dtKey
          show (((stop.y * 13 + 1) * 32 + 1) * 24 + 0) * 60 + 0 ≤
            (((stop.y * 13 + stop.m) * 32 + stop.d) * 24 + stop.hh) * 60 + stop.mm
          omega
        · refine dtLE_of_year_lt hvy he ?_
          show y < stop.y
          omega

/-- C1, witness: the folder enumeration for the notebook's 1984 download
range, extended to a multi-year range. -/
theorem c1_witness :
    (DTValid (⟨1984, 8, 23, 0, 0⟩ : DateTime) ∧ DTValid (⟨1986, 1, 1, 0, 0⟩ : DateTime) ∧
      dtLE ⟨1984, 8, 23, 0, 0⟩ ⟨1986, 1, 1, 0, 0⟩) ∧
    (List.Chain' (fun a b => b = a + 1)
        (gridSatB1Paths ⟨1984, 8, 23, 0, 0⟩ ⟨1986, 1, 1, 0, 0⟩) ∧
      (gridSatB1Paths ⟨1984, 8, 23, 0, 0⟩ ⟨1986, 1, 1, 0, 0⟩).Nodup ∧
      (∀ y, y ∈ gridSatB1Paths ⟨1984, 8, 23, 0, 0⟩ ⟨1986, 1, 1, 0, 0⟩ ↔
        (⟨1984, 8, 23, 0, 0⟩ : DateTime).y ≤ y ∧ y ≤ (⟨1986, 1, 1, 0, 0⟩ : DateTime).y) ∧
      (⟨1984, 8, 23, 0, 0⟩ : DateTime).y ∈
        gridSatB1Paths ⟨1984, 8, 23, 0, 0⟩ ⟨1986, 1, 1, 0, 0⟩ ∧
      (⟨1986, 1, 1, 0, 0⟩ : DateTime).y ∈
        gridSatB1Paths ⟨1984, 8, 23, 0, 0⟩ ⟨1986, 1, 1, 0, 0⟩ ∧
      (∀ t, DTValid t → dtLE ⟨1984, 8, 23, 0, 0⟩ t → dtLE t ⟨1986, 1, 1, 0, 0⟩ →
        t.y ∈ gridSatB1Paths ⟨1984, 8, 23, 0, 0⟩ ⟨1986, 1, 1, 0, 0⟩) ∧
      (∀ y, y ∈ gridSatB1Paths ⟨1984, 8, 23, 0, 0⟩ ⟨1986, 1, 1, 0, 0⟩ →
        ∃ t, DTValid t ∧ dtLE ⟨1984, 8, 23, 0, 0⟩ t ∧ dtLE t ⟨1986, 1, 1, 0, 0⟩ ∧
          t.y = y)) :=
  ⟨⟨by decide, by decide, by decide⟩,
    c1_foldersFor_minimal_cover ⟨1984, 8, 23, 0, 0⟩ ⟨1986, 1, 1, 0, 0⟩
      (by decide) (by decide) (by decide)⟩

/- ### C4: cache time-to-live behaviour -/

/-- C4.  With the never-expire time-to-live of the default construction,
a second `get` for the same folder key never invokes the fetcher: after any
first call, the second call (at any later wall-clock time, with any fetcher
result) returns without a remote listing call.  With a zero time-to-live,
every `get` invokes the fetcher. -/
theorem c4_cache_ttl (st : List CacheSlot) (k : String) (f1 f2 : List String)
    (n1 n2 : Nat) :
    (cacheGet none (cacheGet none st k f1 n1).2.1 k f2 n2).2.2 = false ∧
    (cacheGet (some 0) st k f1 n1).2.2 = true := by
  constructor
  · unfold cacheGet
    cases h : cacheLookup st k with
    | some p =>
      simp only [h, isLive]
      simp [cacheLookup, h, isLive]
    | none =>
      simp only [h, isLive]
      simp [cacheLookup, isLive]
  · unfold cacheGet
    cases h : cacheLookup st k with
    | some p =>
      simp only [h, isLive]
      simp
    | none => simp [h]

/- ### C3, C5: `get_files` bookkeeping -/

/-- The repository only grows during a `get_files` run. -/
theorem getFilesGo_repo_mono :
    ∀ (ps repo : List String) (ok : String → Bool) (p : String),
      p ∈ repo → p ∈ (getFilesGo ps repo ok).repo := by
  intro ps
  induction ps with
  | nil => intro repo ok p hp; exact hp
  | cons q ps ih =>
    intro repo ok p hp
    simp only [getFilesGo]
    by_cases hc : repo.contains q = true
    · simp only [hc, if_true]
      exact ih repo ok p hp
    · simp only [hc, if_false, Bool.false_eq_true]
      by_cases hok : ok q = true
      · simp only [hok, if_true]
        exact ih (q :: repo) ok p (List.mem_cons_of_mem q hp)
      · simp only [hok, if_false, Bool.false_eq_true]
        exact hp

/-- Fetched paths were absent from the repository the run started with. -/
theorem getFilesGo_fetched_not_repo :
    ∀ (ps repo : List String) (ok : String → Bool) (p : String),
      p ∈ (getFilesGo ps repo ok).fetched → p ∉ repo := by
  intro ps
  induction ps with
  | nil => intro repo ok p hp; simp [getFilesGo] at hp
  | cons q ps ih =>
    intro repo ok p hp
    simp only [getFilesGo] at hp
    by_cases hc : repo.contains q = true
    · simp only [hc, if_true] at hp
      exact ih repo ok p hp
    · simp only [hc, if_false, Bool.false_eq_true] at hp
      by_cases hok : ok q = true
      · simp only [hok, if_true] at hp
        rcases List.mem_cons.mp hp with rfl | hp
        · intro hmem
          exact hc (List.elem_iff.mpr hmem)
        · intro hmem
          exact ih (q :: repo) ok p hp (List.mem_cons_of_mem q hmem)
      · simp only [hok, if_false, Bool.false_eq_true] at hp
        rcases List.mem_singleton.mp hp with rfl
        intro hmem
        exact hc (List.elem_iff.mpr hmem)

/-- Every path ensured present is in the final repository. -/
theorem getFilesGo_ensured_repo :
    ∀ (ps repo : List String) (ok : String → Bool) (p : String),
      p ∈ (getFilesGo ps repo ok).ensured → p ∈ (getFilesGo ps repo ok).repo := by
  intro ps
  induction ps with
  | nil => intro repo ok p hp; simp [getFilesGo] at hp
  | cons q ps ih =>
    intro repo ok p hp
    simp only [getFilesGo]
    simp only [getFilesGo] at hp
    by_cases hc : repo.contains q = true
    · simp only [hc, if_true] at hp ⊢
      rcases List.mem_cons.mp hp with rfl | hp
      · exact getFilesGo_repo_mono ps repo ok p (List.elem_iff.mp hc)
      · exact ih repo ok p hp
    · simp only [hc, if_false, Bool.false_eq_true] at hp ⊢
      by_cases hok : ok q = true
      · simp only [hok, if_true] at hp ⊢
        rcases List.mem_cons.mp hp with heq | hp
        · subst heq
          exact getFilesGo_repo_mono ps (p :: repo) ok p (List.mem_cons_self p repo)
        · exact ih (q :: repo) ok p hp
      · simp only [hok, if_false, Bool.false_eq_true] at hp
        simp at hp

/-- Core of the idempotence argument: a path ensured present by a first
`get_files` run is reported as already present by a second run over the
same path list, and the second run never fetches it. -/
theorem getFilesGo_second_run :
    ∀ (ps repo : List String) (ok1 ok2 : String → Bool) (p : String),
      p ∈ (getFilesGo ps repo ok1).ensured →
      (p, Outcome.present) ∈ (getFilesGo ps (getFilesGo ps repo ok1).repo ok2).reports ∧
      p ∉ (getFilesGo ps (getFilesGo ps repo ok1).repo ok2).fetched := by
  intro ps
  induction ps with
  | nil => intro repo ok1 ok2 p hp; simp [getFilesGo] at hp
  | cons q ps ih =>
    intro repo ok1 ok2 p hp
    by_cases hc : repo.contains q = true
    · simp only [getFilesGo, hc, if_true] at hp ⊢
      have hq1 : q ∈ (getFilesGo ps repo ok1).repo :=
        getFilesGo_repo_mono ps repo ok1 q (List.elem_iff.mp hc)
      have hc2 : (getFilesGo ps repo ok1).repo.contains q = true :=
        List.elem_iff.mpr hq1
      simp only [hc2, if_true]
      rcases List.mem_cons.mp hp with heq | hp'
      · subst heq
        refine ⟨List.mem_cons_self _ _, ?_⟩
        intro hf
        exact getFilesGo_fetched_not_repo ps _ ok2 p hf hq1
      · obtain ⟨hrep, hfet⟩ := ih repo ok1 ok2 p hp'
        exact ⟨List.mem_cons_of_mem _ hrep, hfet⟩
    · simp only [getFilesGo, hc, if_false, Bool.false_eq_true] at hp ⊢
      by_cases hok : ok1 q = true
      · simp only [hok, if_true] at hp ⊢
        have hq1 : q ∈ (getFilesGo ps (q :: repo) ok1).repo :=
          getFilesGo_repo_mono ps (q :: repo) ok1 q (List.mem_cons_self q repo)
        have hc2 : (getFilesGo ps (q :: repo) ok1).repo.contains q = true :=
          List.elem_iff.mpr hq1
        simp only [hc2, if_true]
        rcases List.mem_cons.mp hp with heq | hp'
        · subst heq
          refine ⟨List.mem_cons_self _ _, ?_⟩
          intro hf
          exact getFilesGo_fetched_not_repo ps _ ok2 p hf hq1
        · obtain ⟨hrep, hfet⟩ := ih (q :: repo) ok1 ok2 p hp'
          exact ⟨List.mem_cons_of_mem _ hrep, hfet⟩
      · simp only [hok, if_false, Bool.false_eq_true] at hp
        simp at hp

/-- C3.  Running `download_files` twice over the same range against the
same repository performs zero remote file fetches on the second run for
every file obtained by the first run, and the second run reports each such
file as already present.  The listed files are the same in both runs (the
listing depends only on the locator, datasource and range), so this follows
from the `get_files` bookkeeping. -/
theorem c3_download_idempotent (L : LocatorM) (R : RemoteM) (tol start : Int)
    (stop? : Option Int) (repo : List String) (p : String)
    (hp : p ∈ (downloadFilesM L R tol start stop? repo).ensured) :
    (p, Outcome.present) ∈
      (downloadFilesM L R tol start stop?
        (downloadFilesM L R tol start stop? repo).repo).reports ∧
    p ∉ (downloadFilesM L R tol start stop?
        (downloadFilesM L R tol start stop? repo).repo).fetched :=
  getFilesGo_second_run _ repo R.fetchOk R.fetchOk p hp

/-- C3, witness: the fixture download obtains `d/x` on the first run and
reports it as already present, unfetched, on the second. -/
theorem c3_witness :
    "d/x" ∈ (downloadFilesM locFix remFix 60 100 none []).ensured ∧
    (("d/x", Outcome.present) ∈
        (downloadFilesM locFix remFix 60 100 none
          (downloadFilesM locFix remFix 60 100 none []).repo).reports ∧
      "d/x" ∉ (downloadFilesM locFix remFix 60 100 none
          (downloadFilesM locFix remFix 60 100 none []).repo).fetched) :=
  ⟨by decide, c3_download_idempotent locFix remFix 60 100 none [] "d/x" (by decide)⟩

/-- C5.  The claim as stated fails: per the note recorded in the example
notebooks, a fetch failure raises and aborts the batch (see the
counterexample).  Amended claim: when the second of three files fails its
remote fetch, `get_files` raises; the first file is still ensured present
(already-present or downloaded before the failure), the failure is reported
with the failing path, and the third file is never attempted — the run's
reports contain exactly the first two paths. -/
theorem c5_fetch_failure_aborts (repo : List String) (ok : String → Bool)
    (a b c : String) (hne : a ≠ b)
    (ha : repo.contains a = true ∨ ok a = true)
    (hb : repo.contains b = false) (hob : ok b = false) :
    (getFilesGo [a, b, c] repo ok).raised = true ∧
    (getFilesGo [a, b, c] repo ok).ensured = [a] ∧
    (getFilesGo [a, b, c] repo ok).reports =
      [(a, if repo.contains a = true then Outcome.present else Outcome.success),
        (b, Outcome.failure)] := by
  have hmb : b ∉ repo := fun h => by
    have hcb : repo.contains b = true := List.elem_iff.mpr h
    rw [hb] at hcb
    exact absurd hcb (by simp)
  by_cases hca : repo.contains a = true
  · have hma : a ∈ repo := List.elem_iff.mp hca
    simp [getFilesGo, hca, hma, hmb, hob]
  · rcases ha with ha' | ha'
    · exact absurd ha' hca
    · have hma : a ∉ repo := fun h => hca (List.elem_iff.mpr h)
      have hmb2 : b ∉ a :: repo := by
        intro h
        rcases List.mem_cons.mp h with heq | hmem
        · exact hne heq.symm
        · exact hmb hmem
      simp [getFilesGo, hca, hma, ha', hmb2, hob]

/-- C5, counterexample: with the second of three paths failing its fetch,
the run raises and returns only the first path as ensured, not the claimed
two-of-three result — refuting "the call does not raise, and it returns
exactly the subset of requested paths successfully ensured present". -/
theorem c5_counterexample :
    getFilesGo ["a", "b", "c"] [] okExceptB =
      ⟨[("a", .success), ("b", .failure)], ["a", "b"], ["a"], ["a"], true⟩ := by
  decide

/-- C5, witness: the amended statement at the counterexample's input. -/
theorem c5_witness :
    (("a" : String) ≠ "b" ∧ ([] : List String).contains "b" = false ∧
      okExceptB "b" = false) ∧
    ((getFilesGo ["a", "b", "c"] [] okExceptB).raised = true ∧
      (getFilesGo ["a", "b", "c"] [] okExceptB).ensured = ["a"] ∧
      (getFilesGo ["a", "b", "c"] [] okExceptB).reports =
        [("a", if ([] : List String).contains "a" = true then Outcome.present
          else Outcome.success), ("b", Outcome.failure)]) :=
  ⟨⟨by decide, by decide, by decide⟩,
    c5_fetch_failure_aborts [] okExceptB "a" "b" "c" (by decide)
      (Or.inr (by decide)) (by decide) (by decide)⟩

/- ### C7, C10: the listing window -/

/-- Membership after first-occurrence duplicate suppression. -/
theorem dedupFirst_mem :
    ∀ (l seen : List String) (x : String),
      x ∈ dedupFirst l seen ↔ x ∈ l ∧ x ∉ seen := by
  intro l
  induction l with
  | nil => simp [dedupFirst]
  | cons a l ih =>
    intro seen x
    simp only [dedupFirst]
    by_cases hc : seen.contains a = true
    · have hma : a ∈ seen := List.elem_iff.mp hc
      simp only [hc, if_true]
      rw [ih seen x]
      constructor
      · rintro ⟨hx, hs⟩
        exact ⟨List.mem_cons_of_mem a hx, hs⟩
      · rintro ⟨hx, hs⟩
        rcases List.mem_cons.mp hx with heq | hx'
        · subst heq; exact absurd hma hs
        · exact ⟨hx', hs⟩
    · have hma : a ∉ seen := fun h => hc (List.elem_iff.mpr h)
      simp only [hc, if_false, Bool.false_eq_true]
      constructor
      · intro hx
        rcases List.mem_cons.mp hx with heq | hx'
        · subst heq; exact ⟨List.mem_cons_self _ _, hma⟩
        · obtain ⟨hl, hs⟩ := (ih (a :: seen) x).mp hx'
          exact ⟨List.mem_cons_of_mem a hl,
            fun hmem => hs (List.mem_cons_of_mem a hmem)⟩
      · rintro ⟨hx, hs⟩
        rcases List.mem_cons.mp hx with heq | hx'
        · subst heq; exact List.mem_cons_self _ _
        · by_cases hax : x = a
          · subst hax; exact List.mem_cons_self _ _
          · refine List.mem_cons_of_mem a ((ih (a :: seen) x).mpr ⟨hx', ?_⟩)
            intro hmem
            rcases List.mem_cons.mp hmem with heq | hmem'
            · exact hax heq
            · exact hs hmem'

/-- A window test succeeds exactly when a timestamp was extracted and lies
inside the window. -/
theorem timeOk_iff (t? : Option Int) (lo hi : Int) :
    timeOk t? lo hi = true ↔ ∃ t, t? = some t ∧ lo ≤ t ∧ t ≤ hi := by
  cases t? <;> simp [timeOk]

/-- C7.  With no end time, the end defaults to the start (a single-instant
query); the tolerance is subtracted from the start and added to the end
before folder enumeration; and the returned paths are exactly the listed,
matched filenames whose extracted timestamp lies in the symmetric tolerance
window around the instant. -/
theorem c7_single_instant_window (L : LocatorM) (R : RemoteM) (tol start : Int)
    (f : String) :
    listFilesM L R tol start none = listFilesM L R tol start (some start) ∧
    (f ∈ listFilesM L R tol start none ↔
      ∃ dir, dir ∈ L.paths (start - tol) (start + tol) ∧
        ∃ n, n ∈ R.listing dir ∧ f = dir ++ n ∧ L.fmatch n = true ∧
          ∃ t, L.getdt n = some t ∧ start - tol ≤ t ∧ t ≤ start + tol) := by
  refine ⟨rfl, ?_⟩
  unfold listFilesM
  rw [dedupFirst_mem]
  simp only [List.not_mem_nil, not_false_iff, and_true]
  unfold candidatesIn
  simp only [Option.getD_none, List.mem_flatMap, List.mem_map, List.mem_filter,
    Bool.and_eq_true]
  constructor
  · rintro ⟨dir, hdir, n, ⟨hn, hm, ht⟩, hf⟩
    obtain ⟨t, hget, h1, h2⟩ := (timeOk_iff _ _ _).mp ht
    exact ⟨dir, hdir, n, hn, hf.symm, hm, t, hget, h1, h2⟩
  · rintro ⟨dir, hdir, n, hn, hf, hm, t, hget, h1, h2⟩
    exact ⟨dir, hdir, n, ⟨hn, hm, (timeOk_iff _ _ _).mpr ⟨t, hget, h1, h2⟩⟩, hf.symm⟩

/-- C10.  The claim as stated fails: an inverted range narrower than twice
the tolerance still yields a non-empty expanded window, and matching files
inside it are returned and fetched (see the counterexample).  Amended
claim: when the start exceeds the end by more than twice the configured
tolerance, the expanded window is empty, so `list_files` returns the empty
list and `download_files` fetches nothing, reports nothing and does not
raise. -/
theorem c10_inverted_range (L : LocatorM) (R : RemoteM) (tol start stop : Int)
    (repo : List String) (h : stop + 2 * tol < start) :
    listFilesM L R tol start (some stop) = [] ∧
    downloadFilesM L R tol start (some stop) repo = ⟨[], [], [], repo, false⟩ := by
  have hl : listFilesM L R tol start (some stop) = [] := by
    rw [List.eq_nil_iff_forall_not_mem]
    intro f hf
    rw [show listFilesM L R tol start (some stop) =
      dedupFirst (candidatesIn L R (start - tol) (stop + tol)) [] from rfl] at hf
    rw [dedupFirst_mem] at hf
    obtain ⟨hmem, -⟩ := hf
    unfold candidatesIn at hmem
    simp only [List.mem_flatMap, List.mem_map, List.mem_filter,
      Bool.and_eq_true] at hmem
    obtain ⟨dir, _, n, ⟨_, _, htt⟩, _⟩ := hmem
    obtain ⟨t, _, h1, h2⟩ := (timeOk_iff _ _ _).mp htt
    omega
  refine ⟨hl, ?_⟩
  unfold downloadFilesM
  rw [hl]
  rfl

/-- C10, counterexample: a start 30 seconds after the end (less than twice
the 60-second tolerance) still returns the fixture's file and fetches it,
refuting "start later than end returns an empty list and fetches
nothing". -/
theorem c10_counterexample :
    listFilesM locFix remFix 60 130 (some 100) = ["d/x"] ∧
    (downloadFilesM locFix remFix 60 130 (some 100) []).fetched = ["d/x"] := by
  refine ⟨by decide, by decide⟩

/-- C10, witness: the amended statement with the inversion exceeding twice
the tolerance. -/
theorem c10_witness :
    ((100 : Int) + 2 * 60 < 1000) ∧
    (listFilesM locFix remFix 60 1000 (some 100) = [] ∧
      downloadFilesM locFix remFix 60 1000 (some 100) [] = ⟨[], [], [], [], false⟩) :=
  ⟨by decide, c10_inverted_range locFix remFix 60 1000 100 [] (by decide)⟩

/- ### C6: prototype resolution -/

/-- Lookup in a merged attribute map prefers the overriding part. -/
theorem amGet_append (x y : AttrMap) (a : String) :
    amGet (x ++ y) a = oget (amGet x a) (amGet y a) := by
  induction x with
  | nil => simp [amGet, oget]
  | cons kv x ih =>
    obtain ⟨k, v⟩ := kv
    simp only [List.cons_append, amGet]
    by_cases hk : k = a
    · simp [hk, oget]
    · simp [hk, ih]

/-- The empty name list resolves to the empty map. -/
theorem resolveNames_nil (fuel : Nat) (cat : Catalog) :
    resolveNames (fuel + 1) cat [] = some [] := rfl

/-- Unfolding resolution at a head name. -/
theorem resolveNames_cons (fuel : Nat) (cat : Catalog) (name : String)
    (rest : List String) :
    resolveNames (fuel + 1) cat (name :: rest) =
      match catLookup cat name with
      | none => none
      | some e =>
        match resolveNames fuel cat e.inherit with
        | none => none
        | some pm =>
          match resolveNames (fuel + 1) cat rest with
          | none => none
          | some rm => some (amMerge (amMerge pm e.proto) rm) := rfl

/-- C6.  An entry with two parents resolves by merging the parents left to
right and overlaying the entry's own prototype: an attribute explicitly set
by the entry wins; otherwise the later-merged parent's value wins;
otherwise the earlier parent's value is used. -/
theorem c6_multi_parent_merge (cat : Catalog) (fuel : Nat) (X p1 p2 : String)
    (e : CatEntry) (m1 m2 : AttrMap)
    (hX : catLookup cat X = some e) (hInh : e.inherit = [p1, p2])
    (h1 : resolveNames (fuel + 1) cat [p1] = some m1)
    (h2 : resolveNames (fuel + 1) cat [p2] = some m2) :
    ∃ r, resolveNames (fuel + 2) cat [X] = some r ∧
      ∀ a, amGet r a = oget (amGet e.proto a) (oget (amGet m2 a) (amGet m1 a)) := by
  have h2v := h2
  rw [resolveNames_cons] at h1
  rcases hL1 : catLookup cat p1 with _ | e1
  · rw [hL1] at h1; exact absurd h1 (by simp)
  rw [hL1] at h1
  dsimp only at h1
  rcases hR1 : resolveNames fuel cat e1.inherit with _ | q1
  · rw [hR1] at h1; exact absurd h1 (by simp)
  rw [hR1] at h1
  dsimp only at h1
  rw [resolveNames_nil] at h1
  dsimp only at h1
  simp only [Option.some.injEq, amMerge, List.nil_append] at h1
  have hpair : resolveNames (fuel + 1) cat [p1, p2] = some (amMerge m1 m2) := by
    rw [resolveNames_cons, hL1]
    dsimp only
    rw [hR1]
    dsimp only
    rw [h2v]
    dsimp only
    simp only [amMerge]
    rw [h1]
  refine ⟨amMerge (amMerge m1 m2) e.proto, ?_, ?_⟩
  · rw [show fuel + 2 = (fuel + 1) + 1 from rfl, resolveNames_cons, hX]
    dsimp only
    rw [hInh, hpair]
    dsimp only
    rw [resolveNames_nil]
    simp [amMerge]
  · intro a
    unfold amMerge
    rw [amGet_append, amGet_append]

/-- C6, witness: the spec's scenario catalog — `X` inherits `base`
(channel empty) then `family` (channel `C1, C2`) and resolves to the
later-merged parent's channel list. -/
theorem c6_witness :
    (catLookup catFix "X" = some ⟨["base", "family"], [], []⟩ ∧
      resolveNames 2 catFix ["base"] = some [("channel", .l [])] ∧
      resolveNames 2 catFix ["family"] = some [("channel", .l ["C1", "C2"])]) ∧
    (∃ r, resolveNames 3 catFix ["X"] = some r ∧
      ∀ a, amGet r a = oget (amGet ([] : AttrMap) a)
        (oget (amGet [("channel", AttrVal.l ["C1", "C2"])] a)
          (amGet [("channel", AttrVal.l [])] a))) :=
  ⟨⟨by decide, by decide, by decide⟩,
    c6_multi_parent_merge catFix 1 "X" "base" "family" ⟨["base", "family"], [], []⟩
      [("channel", .l [])] [("channel", .l ["C1", "C2"])]
      (by decide) rfl (by decide) (by decide)⟩

/- ### C9: constraint-violation errors -/

/-- Bridge between the boolean `contains` check and list membership. -/
theorem contains_false_iff (l : List String) (x : String) :
    l.contains x = false ↔ x ∉ l := by
  constructor
  · intro h hmem
    have hc : l.contains x = true := List.elem_iff.mpr hmem
    rw [h] at hc
    exact absurd hc (by simp)
  · intro h
    cases hc : l.contains x with
    | false => rfl
    | true => exact absurd (List.elem_iff.mp hc) h

/-- C9.  A requested attribute value outside its allowed set makes the
constructor fail with an error carrying the offending attribute, the
rejected value and the allowed-value list; valid requests succeed. -/
theorem c9_constraint_violation (scene origin ver : String) :
    (AVAILABLE_SCENE.contains scene = false →
      mkGOES2GImagerProduct scene origin ver =
        .error ⟨"scene_id", scene, AVAILABLE_SCENE⟩) ∧
    (AVAILABLE_SCENE.contains scene = true →
      AVAILABLE_ORIGIN.contains origin = false →
      mkGOES2GImagerProduct scene origin ver =
        .error ⟨"origin_id", origin, AVAILABLE_ORIGIN⟩) ∧
    (AVAILABLE_SCENE.contains scene = true →
      AVAILABLE_ORIGIN.contains origin = true →
      AVAILABLE_VERSION.contains ver = false →
      mkGOES2GImagerProduct scene origin ver =
        .error ⟨"version", ver, AVAILABLE_VERSION⟩) ∧
    (AVAILABLE_SCENE.contains scene = true →
      AVAILABLE_ORIGIN.contains origin = true →
      AVAILABLE_VERSION.contains ver = true →
      mkGOES2GImagerProduct scene origin ver = .ok ⟨scene, origin, "MCMIP", ver⟩) := by
  refine ⟨?_, ?_, ?_, ?_⟩
  · intro hs
    have hms := (contains_false_iff _ _).mp hs
    simp [mkGOES2GImagerProduct, hs, hms]
  · intro hs ho
    have hms := List.elem_iff.mp hs
    have hmo := (contains_false_iff _ _).mp ho
    simp [mkGOES2GImagerProduct, hs, ho, hms, hmo]
  · intro hs ho hv
    have hms := List.elem_iff.mp hs
    have hmo := List.elem_iff.mp ho
    have hmv := (contains_false_iff _ _).mp hv
    simp [mkGOES2GImagerProduct, hs, ho, hv, hms, hmo, hmv]
  · intro hs ho hv
    have hms := List.elem_iff.mp hs
    have hmo := List.elem_iff.mp ho
    have hmv := List.elem_iff.mp hv
    simp [mkGOES2GImagerProduct, hs, ho, hv, hms, hmo, hmv]

/-- C9, witness: the recorded notebook request `("F", "G20", "v01")` fails
on the origin, carrying the rejected value and the allowed origin list. -/
theorem c9_witness :
    (AVAILABLE_SCENE.contains "F" = true ∧ AVAILABLE_ORIGIN.contains "G20" = false) ∧
    mkGOES2GImagerProduct "F" "G20" "v01" =
      .error ⟨"origin_id", "G20", AVAILABLE_ORIGIN⟩ :=
  ⟨⟨by decide, by decide⟩,
    (c9_constraint_violation "F" "G20" "v01").2.1 (by decide) (by decide)⟩
